import Mathlib

/-!
Verification of the 3DPanelAnalyzer program.

The program parses a Wavefront-OBJ-like text file into a list of named
sides (each with a list of points and a list of integer face index lists),
scans the ordered side list for windows of six consecutive sides forming
the topology of a rectangular box, computes each detected panel's bounding
box properties, and aggregates the panels by their rounded dimension
triple into an insertion-ordered mapping from triple to list of origins.

Coordinates are modelled as rationals; the Python float rounding
`round(x, 1)` is modelled by an explicit round-to-one-decimal function on
the rationals, and the IEEE negative-zero produced by rounding a small
negative value is modelled by an explicit sign-of-zero flag alongside the
rational value.  Python exceptions (appending to a `None` group,
`min`/`max` over an empty sequence, out-of-range indexing) are modelled by
`Except`/`Option` results.
-/

namespace PanelAnalyzer

/-- Rounding to one decimal place, as in Python `round(x, 1)` on the exact
value: multiply by ten, round to the nearest integer, divide by ten. -/
def round1 (x : ℚ) : ℚ := (⌊10 * x + 1 / 2⌋ : ℚ) / 10

/-- Inch-to-centimeter conversion factor 2.54 used on every parsed
coordinate. -/
def inchToCm : ℚ := 254 / 100

/-- A side of an object: its name, its list of points (each point a list of
coordinates, one list entry per number on the `v` line), and its list of
surfaces (each a list of integer vertex indices, stored exactly as read). -/
structure Side where
  name : String
  points : List (List ℚ)
  surfaces : List (List ℤ)
deriving DecidableEq

/-- An input line, after tokenization: a group header `o name`, a point
line `v x y z ...`, a face line `f i1 i2 ...`, or any other line (which
the parser ignores). -/
inductive ObjLine where
  | o (name : String)
  | v (coords : List ℚ)
  | f (idxs : List ℤ)
  | other
deriving DecidableEq

/-- Result of Python `round(coord * 2.54, 1)`: the rational value together
with a flag marking IEEE negative zero (Python's `round` preserves the
sign of zero, so a tiny negative coordinate rounds to `-0.0`). -/
def convertCoord (x : ℚ) : ℚ × Bool :=
  let v := round1 (x * inchToCm)
  (v, decide (v = 0 ∧ x * inchToCm < 0))

/-- Line 41 of the source: `coord if coord != -0.0 else 0.0`.  Python's
`==` identifies `-0.0` with `0.0`, so the branch replaces any zero by
positive zero and leaves every nonzero value unchanged. -/
def normalizeZero (c : ℚ × Bool) : ℚ × Bool :=
  if c.1 = 0 then (0, false) else c

/-- The coordinate value actually stored for an input coordinate `x` on a
`v` line (with its sign-of-zero flag). -/
def storedCoordPair (x : ℚ) : ℚ × Bool :=
  normalizeZero (convertCoord x)

/-- The rational value of the stored coordinate. -/
def storedCoord (x : ℚ) : ℚ := (storedCoordPair x).1

/-- The parsing loop of `parse_side`, over the token stream, carrying the
list of finished sides and the current side (`None` in Python before the
first `o` line).  Appending a point or surface while no group is active
raises an `AttributeError` in Python, modelled as `Except.error`. -/
def parseLines : List ObjLine → List Side → Option Side → Except String (List Side)
  | [], sides, none => Except.ok sides
  | [], sides, some c => Except.ok (sides ++ [c])
  | ObjLine.o n :: rest, sides, cur =>
      let sides1 := match cur with
        | none => sides
        | some c => sides ++ [c]
      parseLines rest sides1 (some (Side.mk (n.replace "obj" "") [] []))
  | ObjLine.v cs :: rest, sides, cur =>
      match cur with
      | none => Except.error "AttributeError: NoneType object has no attribute points"
      | some c =>
          parseLines rest sides
            (some (Side.mk c.name (c.points ++ [cs.map storedCoord]) c.surfaces))
  | ObjLine.f idxs :: rest, sides, cur =>
      match cur with
      | none => Except.error "AttributeError: NoneType object has no attribute surfaces"
      | some c =>
          parseLines rest sides
            (some (Side.mk c.name c.points (c.surfaces ++ [idxs])))
  | ObjLine.other :: rest, sides, cur => parseLines rest sides cur

/-- Parsing a whole file: start with no finished side and no current side. -/
def parse_side (lines : List ObjLine) : Except String (List Side) :=
  parseLines lines [] none

/-- The window `sides[i:i+6]` of six consecutive sides starting at `i`. -/
def window (sides : List Side) (i : ℕ) : List Side :=
  (sides.drop i).take 6

/-- All points of a group of sides, flattened in order, as in
`[tuple(point) for side in group for point in side.points]`. -/
def allPoints (group : List Side) : List (List ℚ) :=
  group.flatMap Side.points

/-- All surfaces of a group of sides, flattened in order. -/
def allSurfaces (group : List Side) : List (List ℤ) :=
  group.flatMap Side.surfaces

/-- The box-topology test of `find_panels`: every side has 4 points and
2 surfaces, the points of the group have 8 distinct values, and the
surfaces have 12 distinct values (`len(set(...))` is the number of
distinct values, here the length of `List.dedup`). -/
def isBoxGroup (group : List Side) : Bool :=
  group.all (fun s => s.points.length == 4) &&
  group.all (fun s => s.surfaces.length == 2) &&
  ((allPoints group).dedup.length == 8) &&
  ((allSurfaces group).dedup.length == 12)

/-- Sliding-window detector: for each start index in `range(len(sides) - 5)`
keep the window of six consecutive sides iff it passes the box test. -/
def find_panels (sides : List Side) : List (List Side) :=
  (List.range (sides.length - 5)).filterMap fun i =>
    if isBoxGroup (window sides i) then some (window sides i) else none

/-- Minimum of a list of rationals; `none` on the empty list, where Python
`min` raises `ValueError`. -/
def listMin : List ℚ → Option ℚ
  | [] => none
  | x :: xs =>
      some (match listMin xs with
        | none => x
        | some m => min x m)

/-- Maximum of a list of rationals; `none` on the empty list. -/
def listMax : List ℚ → Option ℚ
  | [] => none
  | x :: xs =>
      some (match listMax xs with
        | none => x
        | some m => max x m)

/-- The coordinates of all points along axis `i`; `none` as soon as some
point has no coordinate `i` (Python raises `IndexError`). -/
def axisCoords : List (List ℚ) → ℕ → Option (List ℚ)
  | [], _ => some []
  | p :: ps, i =>
      match p[i]?, axisCoords ps i with
      | some x, some xs => some (x :: xs)
      | _, _ => none

/-- Python `min(point[i] for point in pts)`. -/
def axisMin (pts : List (List ℚ)) (i : ℕ) : Option ℚ :=
  (axisCoords pts i).bind listMin

/-- Python `max(point[i] for point in pts)`. -/
def axisMax (pts : List (List ℚ)) (i : ℕ) : Option ℚ :=
  (axisCoords pts i).bind listMax

/-- Property computation for a panel: origin is the triple of per-axis
minima, the extents are sorted ascending (Python `sorted`, a stable sort)
and then each rounded to one decimal; the function returns
`(origin, length, width, height)` as the source does.  `none` models the
exceptions raised on an empty point list or on a point with fewer than
three coordinates. -/
def calculate_panel_properties (panel : List Side) :
    Option ((ℚ × ℚ × ℚ) × ℚ × ℚ × ℚ) :=
  (axisMin (allPoints panel) 0).bind fun minX =>
  (axisMin (allPoints panel) 1).bind fun minY =>
  (axisMin (allPoints panel) 2).bind fun minZ =>
  (axisMax (allPoints panel) 0).bind fun maxX =>
  (axisMax (allPoints panel) 1).bind fun maxY =>
  (axisMax (allPoints panel) 2).bind fun maxZ =>
  match List.insertionSort (fun a b : ℚ => a ≤ b)
      [maxX - minX, maxY - minY, maxZ - minZ] with
  | [d0, d1, d2] =>
      some ((minX, minY, minZ), round1 d2, round1 d1, round1 d0)
  | _ => none

/-- The dimension triple `(length, width, height)` of a panel; the second
component of `calculate_panel_properties`.  The fallback value for a panel
on which the calculator raises is never used on detector output whose
points are three-dimensional. -/
def tripleOf (panel : List Side) : ℚ × ℚ × ℚ :=
  match calculate_panel_properties panel with
  | some (_, l, w, h) => (l, w, h)
  | none => (0, 0, 0)

/-- The origin of a panel; the first component of
`calculate_panel_properties`, with the same unreachable fallback. -/
def originOf (panel : List Side) : ℚ × ℚ × ℚ :=
  match calculate_panel_properties panel with
  | some (o, _, _, _) => o
  | none => (0, 0, 0)

/-- The sort key of line 122: `(height, length * width)`. -/
def panelKey (panel : List Side) : ℚ × ℚ :=
  match calculate_panel_properties panel with
  | some (_, l, w, h) => (h, l * w)
  | none => (0, 0)

/-- Lexicographic order on pairs of rationals, as Python compares the key
tuples. -/
def keyLE2 (x y : ℚ × ℚ) : Prop :=
  x.1 < y.1 ∨ (x.1 = y.1 ∧ x.2 ≤ y.2)

instance : DecidableRel keyLE2 := fun x y => by
  unfold keyLE2; infer_instance

/-- The processing order of `sorted(panels, key=..., reverse=True)`:
`p` may come before `q` when the key of `q` is lexicographically at most
the key of `p`. -/
def panelGE (p q : List Side) : Prop :=
  keyLE2 (panelKey q) (panelKey p)

instance : DecidableRel panelGE := fun p q => by
  unfold panelGE; infer_instance

/-- Python's `sorted` with `reverse=True` is a stable descending sort; a
stable sort's output is unique, so the insertion sort along `panelGE`
computes it. -/
def sortPanels (panels : List (List Side)) : List (List Side) :=
  List.insertionSort panelGE panels

/-- The dimension-triple keyed mapping. -/
abbrev PanelMap := List ((ℚ × ℚ × ℚ) × List (ℚ × ℚ × ℚ))

/-- Dictionary insertion of lines 128-131: append the origin to the entry
with the exactly matching key, or add a fresh entry at the end. -/
def insertPanelEntry : PanelMap → ℚ × ℚ × ℚ → ℚ × ℚ × ℚ → PanelMap
  | [], k, o => [(k, [o])]
  | (k1, os) :: rest, k, o =>
      if k1 = k then (k1, os ++ [o]) :: rest
      else (k1, os) :: insertPanelEntry rest k o

/-- One iteration of the aggregation loop; `none` models the exception
raised when the property calculator fails. -/
def aggregateStep (m : PanelMap) (panel : List Side) : Option PanelMap :=
  match calculate_panel_properties panel with
  | some (o, l, w, h) => some (insertPanelEntry m (l, w, h) o)
  | none => none

/-- The aggregation of `main` (lines 120-131): sort the panels descending
by `(height, length * width)` and insert each into the mapping in that
order. -/
def aggregate (panels : List (List Side)) : Option PanelMap :=
  (sortPanels panels).foldlM aggregateStep []

/-- The whole pipeline of `main` up to the report data: parse, detect,
aggregate.  The report prints one block per mapping entry, so an empty
mapping is an empty report. -/
def pipeline (lines : List ObjLine) : Except String PanelMap :=
  match parse_side lines with
  | Except.error e => Except.error e
  | Except.ok sides =>
      match aggregate (find_panels sides) with
      | some m => Except.ok m
      | none => Except.error "exception in calculate_panel_properties"

/-- The list of origins recorded in the mapping under key `k` (empty when
the key is absent). -/
def originsAt : PanelMap → ℚ × ℚ × ℚ → List (ℚ × ℚ × ℚ)
  | [], _ => []
  | (k1, os) :: rest, k => if k1 = k then os else originsAt rest k

/-- The distinct values of a list, keeping the first occurrence of each, in
order of first appearance. -/
def firstKeys : List (ℚ × ℚ × ℚ) → List (ℚ × ℚ × ℚ)
  | [] => []
  | k :: ks => k :: (firstKeys ks).filter fun x => decide (x ≠ k)

/-- Key list evolution under successive insertions: a key already present
leaves the key list unchanged, a new key is appended. -/
def addNewKeys (ks : List (ℚ × ℚ × ℚ)) : List (ℚ × ℚ × ℚ) → List (ℚ × ℚ × ℚ)
  | [] => ks
  | k :: rest => addNewKeys (if k ∈ ks then ks else ks ++ [k]) rest

/-- The pure aggregation fold, defined for panels on which the property
calculator succeeds. -/
def groupPanels (m : PanelMap) : List (List Side) → PanelMap
  | [] => m
  | p :: ps => groupPanels (insertPanelEntry m (tripleOf p) (originOf p)) ps

/-- The box-topology invariant of the specification, stated over the set
of distinct point and surface values. -/
def BoxInvariant (group : List Side) : Prop :=
  (∀ s ∈ group, s.points.length = 4) ∧
  (∀ s ∈ group, s.surfaces.length = 2) ∧
  (allPoints group).toFinset.card = 8 ∧
  (allSurfaces group).toFinset.card = 12

instance : DecidablePred BoxInvariant := fun g => by
  unfold BoxInvariant; infer_instance

/-- Test for a group-header line. -/
def isOLine : ObjLine → Bool
  | ObjLine.o _ => true
  | _ => false

/-- Test for a point or face line. -/
def isVFLine : ObjLine → Bool
  | ObjLine.v _ => true
  | ObjLine.f _ => true
  | _ => false

/-- Six sides forming a unit cube with corners `(0,0,0)` and `(1,1,1)`,
with 8 distinct corner points and 12 distinct surface index lists. -/
def cubeSides : List Side :=
  [ Side.mk "a" [[0,0,0],[1,0,0],[0,1,0],[1,1,0]] [[1],[2]],
    Side.mk "b" [[0,0,1],[1,0,1],[0,1,1],[1,1,1]] [[3],[4]],
    Side.mk "c" [[0,0,0],[1,0,0],[0,0,1],[1,0,1]] [[5],[6]],
    Side.mk "d" [[0,1,0],[1,1,0],[0,1,1],[1,1,1]] [[7],[8]],
    Side.mk "e" [[0,0,0],[0,1,0],[0,0,1],[0,1,1]] [[9],[10]],
    Side.mk "f" [[1,0,0],[1,1,0],[1,0,1],[1,1,1]] [[11],[12]] ]

/-- The same cube translated by 5 along the first axis. -/
def cubeSidesShifted : List Side :=
  [ Side.mk "a" [[5,0,0],[6,0,0],[5,1,0],[6,1,0]] [[13],[14]],
    Side.mk "b" [[5,0,1],[6,0,1],[5,1,1],[6,1,1]] [[15],[16]],
    Side.mk "c" [[5,0,0],[6,0,0],[5,0,1],[6,0,1]] [[17],[18]],
    Side.mk "d" [[5,1,0],[6,1,0],[5,1,1],[6,1,1]] [[19],[20]],
    Side.mk "e" [[5,0,0],[5,1,0],[5,0,1],[5,1,1]] [[21],[22]],
    Side.mk "f" [[6,0,0],[6,1,0],[6,0,1],[6,1,1]] [[23],[24]] ]

/-- Six sides whose points are two-dimensional: they pass the box test
(4 points and 2 surfaces per side, 8 distinct points, 12 distinct
surfaces) but have no third coordinate. -/
def flatSides : List Side :=
  [ Side.mk "a" [[0,0],[1,0],[0,1],[1,1]] [[1],[2]],
    Side.mk "b" [[2,0],[2,1],[3,0],[3,1]] [[3],[4]],
    Side.mk "c" [[0,0],[1,0],[0,1],[1,1]] [[5],[6]],
    Side.mk "d" [[0,0],[1,0],[0,1],[1,1]] [[7],[8]],
    Side.mk "e" [[0,0],[1,0],[0,1],[1,1]] [[9],[10]],
    Side.mk "f" [[0,0],[1,0],[0,1],[1,1]] [[11],[12]] ]

/-! ### Lemmas on the detector -/

theorem filterMap_ite {α β : Type _} (l : List α) (p : α → Bool) (f : α → β) :
    (l.filterMap fun a => if p a then some (f a) else none) = (l.filter p).map f := by
  induction l with
  | nil => rfl
  | cons a t ih => cases hpa : p a <;> simp [List.filterMap_cons, List.filter_cons, hpa, ih]

theorem isBoxGroup_iff (g : List Side) : isBoxGroup g = true ↔ BoxInvariant g := by
  simp [isBoxGroup, BoxInvariant, List.all_eq_true, ← List.card_toFinset, and_assoc]

theorem isBoxGroup_eq_decide (g : List Side) : isBoxGroup g = decide (BoxInvariant g) := by
  rw [Bool.eq_iff_iff, decide_eq_true_iff]
  exact isBoxGroup_iff g

theorem find_panels_eq (sides : List Side) :
    find_panels sides =
      ((List.range (sides.length - 5)).filter fun i =>
        decide (BoxInvariant (window sides i))).map (window sides) := by
  unfold find_panels
  rw [filterMap_ite]
  congr 1
  apply List.filter_congr
  intro i _
  exact isBoxGroup_eq_decide _

/-- C1: `find_panels` returns exactly the windows of six consecutive sides
starting at indices `0` to `N - 6` that satisfy the box-topology invariant
(each of the six sides has exactly 4 points and exactly 2 faces, the union
of points has exactly 8 distinct values, the union of faces has exactly 12
distinct values), in order of increasing start index. -/
theorem find_panels_returns_valid_windows (sides : List Side) :
    find_panels sides =
      ((List.range (sides.length - 5)).filter fun i =>
        decide (BoxInvariant (window sides i))).map (window sides) :=
  find_panels_eq sides

/-! ### Parsing lemmas -/

/-- C7: the coordinate stored for an input coordinate `x` of a `v` line is
exactly `round1 (x * 2.54)`, its negative-zero flag is always cleared, and
the parser extends the current side's point list with exactly these
values. -/
theorem stored_coordinate_rounded (x : ℚ) (cs : List ℚ) (c : Side)
    (sides : List Side) (rest : List ObjLine) :
    storedCoordPair x = (round1 (x * inchToCm), false) ∧
    parseLines (ObjLine.v cs :: rest) sides (some c) =
      parseLines rest sides
        (some (Side.mk c.name (c.points ++ [cs.map storedCoord]) c.surfaces)) := by
  refine ⟨?_, rfl⟩
  unfold storedCoordPair normalizeZero convertCoord
  by_cases hz : round1 (x * inchToCm) = 0 <;> simp [hz]

theorem parseLines_skip_other (lines : List ObjLine)
    (h : ∀ l ∈ lines, l = ObjLine.other) :
    ∀ sides cur, parseLines lines sides cur = parseLines [] sides cur := by
  induction lines with
  | nil => intro sides cur; rfl
  | cons l rest ih =>
      intro sides cur
      have hl : l = ObjLine.other := h l (by simp)
      subst hl
      have := ih (fun x hx => h x (by simp [hx]))
      simpa [parseLines] using this sides cur

theorem parse_error_after_vf_with_no_group (mid : ObjLine) (rest : List ObjLine)
    (hmid : isVFLine mid = true) :
    ∀ (pre : List ObjLine), (∀ x ∈ pre, isOLine x = false) →
      ∀ sides, ∃ e, parseLines (pre ++ mid :: rest) sides none = Except.error e := by
  intro pre
  induction pre with
  | nil =>
      intro _ sides
      cases mid with
      | v cs => exact ⟨_, rfl⟩
      | f idxs => exact ⟨_, rfl⟩
      | o n => simp [isVFLine] at hmid
      | other => simp [isVFLine] at hmid
  | cons x pre ih =>
      intro hpre sides
      have hx : isOLine x = false := hpre x (by simp)
      have hpre2 : ∀ y ∈ pre, isOLine y = false := fun y hy => hpre y (by simp [hy])
      cases x with
      | o n => simp [isOLine] at hx
      | v cs => exact ⟨_, rfl⟩
      | f idxs => exact ⟨_, rfl⟩
      | other => simpa [parseLines] using ih hpre2 sides

/-- C9: if a `v` line or an `f` line occurs before any `o` line, parsing
fails with a parse error and no side list is returned. -/
theorem parse_fails_on_point_before_group (lines pre : List ObjLine)
    (mid : ObjLine) (rest : List ObjLine)
    (hsplit : lines = pre ++ mid :: rest)
    (hpre : ∀ x ∈ pre, isOLine x = false)
    (hmid : isVFLine mid = true) :
    ∃ e, parse_side lines = Except.error e := by
  subst hsplit
  exact parse_error_after_vf_with_no_group mid rest hmid pre hpre []

/-- C9 witness: a single `f` line before any `o` line is a parse error. -/
theorem parse_fails_on_point_before_group_witness :
    ([ObjLine.f []] = ([] : List ObjLine) ++ ObjLine.f [] :: []) ∧
    (∀ x ∈ ([] : List ObjLine), isOLine x = false) ∧
    isVFLine (ObjLine.f []) = true ∧
    ∃ e, parse_side [ObjLine.f []] = Except.error e :=
  ⟨rfl, by simp, rfl,
    parse_fails_on_point_before_group [ObjLine.f []] [] (ObjLine.f []) []
      rfl (by simp) rfl⟩

/-- C8 counterexample: the input consisting of the single line `v 1` (a
point line, hence no `o` lines at all) does not parse to an empty side
list; it is a parse error, against the claim that every input without `o`
lines parses to an empty side list and completes successfully. -/
theorem empty_claim_counterexample :
    parse_side [ObjLine.v [1]] =
      Except.error "AttributeError: NoneType object has no attribute points" :=
  rfl

/-- C8 (amended): an input none of whose lines is an `o`, `v` or `f` line
(in particular the empty input) parses to an empty side list, yields zero
panels and an empty report, and the run completes successfully. -/
theorem empty_input_empty_report (lines : List ObjLine)
    (h : ∀ l ∈ lines, l = ObjLine.other) :
    parse_side lines = Except.ok [] ∧
    find_panels [] = [] ∧
    pipeline lines = Except.ok [] := by
  have hp : parse_side lines = Except.ok [] := by
    unfold parse_side
    rw [parseLines_skip_other lines h]
    rfl
  refine ⟨hp, rfl, ?_⟩
  unfold pipeline
  rw [hp]
  rfl

/-- C8 witness: a single ignored line. -/
theorem empty_input_empty_report_witness :
    (∀ l ∈ [ObjLine.other], l = ObjLine.other) ∧
    (parse_side [ObjLine.other] = Except.ok [] ∧
      find_panels [] = [] ∧
      pipeline [ObjLine.other] = Except.ok []) :=
  ⟨by simp, empty_input_empty_report [ObjLine.other] (by simp)⟩

/-! ### Lemmas on the property calculator -/

theorem listMin_mem_le : ∀ (l : List ℚ) (m : ℚ), listMin l = some m →
    m ∈ l ∧ ∀ y ∈ l, m ≤ y := by
  intro l
  induction l with
  | nil => intro m hm; simp [listMin] at hm
  | cons x xs ih =>
      intro m hm
      cases hxs : listMin xs with
      | none =>
          have hnil : xs = [] := by
            cases xs with
            | nil => rfl
            | cons a b => simp [listMin] at hxs
          subst hnil
          simp [listMin] at hm
          subst hm
          simp
      | some mx =>
          simp [listMin, hxs] at hm
          obtain ⟨hmem, hle⟩ := ih mx hxs
          subst hm
          refine ⟨?_, ?_⟩
          · rcases min_cases x mx with ⟨he, _⟩ | ⟨he, _⟩ <;> rw [he]
            · exact List.mem_cons_self x xs
            · exact List.mem_cons_of_mem x hmem
          · intro y hy
            rcases List.mem_cons.mp hy with hyx | hy2
            · rw [hyx]; exact min_le_left x mx
            · exact le_trans (min_le_right x mx) (hle y hy2)

theorem listMax_mem_ge : ∀ (l : List ℚ) (m : ℚ), listMax l = some m →
    m ∈ l ∧ ∀ y ∈ l, y ≤ m := by
  intro l
  induction l with
  | nil => intro m hm; simp [listMax] at hm
  | cons x xs ih =>
      intro m hm
      cases hxs : listMax xs with
      | none =>
          have hnil : xs = [] := by
            cases xs with
            | nil => rfl
            | cons a b => simp [listMax] at hxs
          subst hnil
          simp [listMax] at hm
          subst hm
          simp
      | some mx =>
          simp [listMax, hxs] at hm
          obtain ⟨hmem, hle⟩ := ih mx hxs
          subst hm
          refine ⟨?_, ?_⟩
          · rcases max_cases x mx with ⟨he, _⟩ | ⟨he, _⟩ <;> rw [he]
            · exact List.mem_cons_self x xs
            · exact List.mem_cons_of_mem x hmem
          · intro y hy
            rcases List.mem_cons.mp hy with hyx | hy2
            · rw [hyx]; exact le_max_left x mx
            · exact le_trans (hle y hy2) (le_max_right x mx)

theorem round1_mono {x y : ℚ} (hxy : x ≤ y) : round1 x ≤ round1 y := by
  unfold round1
  have h1 : (⌊10 * x + 1 / 2⌋ : ℤ) ≤ ⌊10 * y + 1 / 2⌋ := Int.floor_mono (by linarith)
  have h2 : ((⌊10 * x + 1 / 2⌋ : ℤ) : ℚ) ≤ ((⌊10 * y + 1 / 2⌋ : ℤ) : ℚ) := by
    exact_mod_cast h1
  linarith

/-- Structure of a successful run of the property calculator. -/
theorem calc_some_elim (panel : List Side) (o : ℚ × ℚ × ℚ) (l w h : ℚ)
    (hc : calculate_panel_properties panel = some (o, l, w, h)) :
    ∃ mn0 mn1 mn2 mx0 mx1 mx2 d0 d1 d2,
      axisMin (allPoints panel) 0 = some mn0 ∧
      axisMin (allPoints panel) 1 = some mn1 ∧
      axisMin (allPoints panel) 2 = some mn2 ∧
      axisMax (allPoints panel) 0 = some mx0 ∧
      axisMax (allPoints panel) 1 = some mx1 ∧
      axisMax (allPoints panel) 2 = some mx2 ∧
      List.insertionSort (fun a b : ℚ => a ≤ b)
        [mx0 - mn0, mx1 - mn1, mx2 - mn2] = [d0, d1, d2] ∧
      o = (mn0, mn1, mn2) ∧ l = round1 d2 ∧ w = round1 d1 ∧ h = round1 d0 := by
  unfold calculate_panel_properties at hc
  simp only [Option.bind_eq_some] at hc
  obtain ⟨mn0, h0, mn1, h1, mn2, h2, mx0, h3, mx1, h4, mx2, h5, hc⟩ := hc
  have hlen : (List.insertionSort (fun a b : ℚ => a ≤ b)
      [mx0 - mn0, mx1 - mn1, mx2 - mn2]).length = 3 := by
    rw [List.length_insertionSort]
    rfl
  obtain ⟨d0, d1, d2, hsort⟩ := List.length_eq_three.mp hlen
  rw [hsort] at hc
  simp only [Option.some.injEq, Prod.mk.injEq] at hc
  obtain ⟨ho, hl, hw, hh⟩ := hc
  exact ⟨mn0, mn1, mn2, mx0, mx1, mx2, d0, d1, d2,
    h0, h1, h2, h3, h4, h5, hsort, ho.symm, hl.symm, hw.symm, hh.symm⟩

/-- C4: on a successful run, the origin components are the per-axis minima
of the collected coordinates (stored unrounded), and `[height, width,
length]` is an ascending sorted permutation of the three per-axis extents
with each entry rounded to one decimal place. -/
theorem calc_origin_minima_dims_sorted_extents (panel : List Side)
    (o : ℚ × ℚ × ℚ) (l w h : ℚ)
    (hc : calculate_panel_properties panel = some (o, l, w, h)) :
    (∃ xs, axisCoords (allPoints panel) 0 = some xs ∧
      o.1 ∈ xs ∧ ∀ y ∈ xs, o.1 ≤ y) ∧
    (∃ ys, axisCoords (allPoints panel) 1 = some ys ∧
      o.2.1 ∈ ys ∧ ∀ y ∈ ys, o.2.1 ≤ y) ∧
    (∃ zs, axisCoords (allPoints panel) 2 = some zs ∧
      o.2.2 ∈ zs ∧ ∀ y ∈ zs, o.2.2 ≤ y) ∧
    ∃ mx0 mx1 mx2,
      axisMax (allPoints panel) 0 = some mx0 ∧
      axisMax (allPoints panel) 1 = some mx1 ∧
      axisMax (allPoints panel) 2 = some mx2 ∧
      ∃ ds : List ℚ, List.Perm ds [mx0 - o.1, mx1 - o.2.1, mx2 - o.2.2] ∧
        List.Sorted (fun a b : ℚ => a ≤ b) ds ∧ [h, w, l] = ds.map round1 := by
  obtain ⟨mn0, mn1, mn2, mx0, mx1, mx2, d0, d1, d2,
    h0, h1, h2, h3, h4, h5, hsort, ho, hl, hw, hh⟩ :=
    calc_some_elim panel o l w h hc
  subst ho
  refine ⟨?_, ?_, ?_, mx0, mx1, mx2, h3, h4, h5, [d0, d1, d2], ?_, ?_, ?_⟩
  · obtain ⟨xs, hxs, hmin⟩ := Option.bind_eq_some.mp h0
    exact ⟨xs, hxs, listMin_mem_le xs mn0 hmin⟩
  · obtain ⟨ys, hys, hmin⟩ := Option.bind_eq_some.mp h1
    exact ⟨ys, hys, listMin_mem_le ys mn1 hmin⟩
  · obtain ⟨zs, hzs, hmin⟩ := Option.bind_eq_some.mp h2
    exact ⟨zs, hzs, listMin_mem_le zs mn2 hmin⟩
  · rw [← hsort]
    exact List.perm_insertionSort _ _
  · rw [← hsort]
    exact List.sorted_insertionSort _ _
  · rw [hh, hw, hl]
    rfl

attribute [local semireducible] Rat.mul Rat.inv Rat.add Rat.sub in
set_option maxRecDepth 100000 in
/-- C4 witness: the unit cube. -/
theorem calc_origin_minima_dims_sorted_extents_witness :
    calculate_panel_properties cubeSides = some ((0, 0, 0), 1, 1, 1) ∧
    ((∃ xs, axisCoords (allPoints cubeSides) 0 = some xs ∧
      (0 : ℚ) ∈ xs ∧ ∀ y ∈ xs, (0 : ℚ) ≤ y) ∧
    (∃ ys, axisCoords (allPoints cubeSides) 1 = some ys ∧
      (0 : ℚ) ∈ ys ∧ ∀ y ∈ ys, (0 : ℚ) ≤ y) ∧
    (∃ zs, axisCoords (allPoints cubeSides) 2 = some zs ∧
      (0 : ℚ) ∈ zs ∧ ∀ y ∈ zs, (0 : ℚ) ≤ y) ∧
    ∃ mx0 mx1 mx2,
      axisMax (allPoints cubeSides) 0 = some mx0 ∧
      axisMax (allPoints cubeSides) 1 = some mx1 ∧
      axisMax (allPoints cubeSides) 2 = some mx2 ∧
      ∃ ds : List ℚ, List.Perm ds [mx0 - 0, mx1 - 0, mx2 - 0] ∧
        List.Sorted (fun a b : ℚ => a ≤ b) ds ∧ [1, 1, 1] = ds.map round1) :=
  ⟨by decide,
    calc_origin_minima_dims_sorted_extents cubeSides (0, 0, 0) 1 1 1 (by decide)⟩

/-- C5: on a successful run the returned rounded dimension triple
satisfies `height ≤ width ≤ length`: rounding after sorting preserves
the ascending order. -/
theorem calc_dims_ascending (panel : List Side) (o : ℚ × ℚ × ℚ) (l w h : ℚ)
    (hc : calculate_panel_properties panel = some (o, l, w, h)) :
    h ≤ w ∧ w ≤ l := by
  obtain ⟨mn0, mn1, mn2, mx0, mx1, mx2, d0, d1, d2,
    _, _, _, _, _, _, hsort, _, hl, hw, hh⟩ := calc_some_elim panel o l w h hc
  have hsorted : ([d0, d1, d2] : List ℚ).Sorted (fun a b : ℚ => a ≤ b) := by
    rw [← hsort]
    exact List.sorted_insertionSort _ _
  have h01 : d0 ≤ d1 := List.rel_of_sorted_cons hsorted d1 (by simp)
  have h12 : d1 ≤ d2 :=
    List.rel_of_sorted_cons (List.sorted_cons.mp hsorted).2 d2 (by simp)
  rw [hl, hw, hh]
  exact ⟨round1_mono h01, round1_mono h12⟩

attribute [local semireducible] Rat.mul Rat.inv Rat.add Rat.sub in
set_option maxRecDepth 100000 in
/-- C5 witness: the unit cube. -/
theorem calc_dims_ascending_witness :
    calculate_panel_properties cubeSides = some ((0, 0, 0), 1, 1, 1) ∧
    ((1 : ℚ) ≤ 1 ∧ (1 : ℚ) ≤ 1) :=
  ⟨by decide, calc_dims_ascending cubeSides (0, 0, 0) 1 1 1 (by decide)⟩

/-! ### Lemmas for totality of the calculator on detector output -/

theorem axisCoords_all_some (i : ℕ) :
    ∀ pts : List (List ℚ), (∀ p ∈ pts, i < p.length) →
      ∃ xs, axisCoords pts i = some xs ∧ xs.length = pts.length := by
  intro pts
  induction pts with
  | nil => intro _; exact ⟨[], rfl, rfl⟩
  | cons p ps ih =>
      intro hall
      obtain ⟨xs, hxs, hlen⟩ := ih fun q hq => hall q (by simp [hq])
      have hp : i < p.length := hall p (by simp)
      refine ⟨p[i] :: xs, ?_, by simp [hlen]⟩
      unfold axisCoords
      rw [List.getElem?_eq_getElem hp, hxs]

theorem listMin_isSome (x : ℚ) (xs : List ℚ) : ∃ m, listMin (x :: xs) = some m :=
  ⟨_, rfl⟩

theorem listMax_isSome (x : ℚ) (xs : List ℚ) : ∃ m, listMax (x :: xs) = some m :=
  ⟨_, rfl⟩

theorem window_length (sides : List Side) (i : ℕ) (hi : i ∈ List.range (sides.length - 5)) :
    (window sides i).length = 6 := by
  rw [List.mem_range] at hi
  unfold window
  rw [List.length_take, List.length_drop]
  omega

theorem mem_find_panels_elim (sides : List Side) (panel : List Side)
    (hp : panel ∈ find_panels sides) :
    panel.length = 6 ∧ BoxInvariant panel := by
  rw [find_panels_eq] at hp
  obtain ⟨i, hi, rfl⟩ := List.mem_map.mp hp
  rw [List.mem_filter] at hi
  obtain ⟨hrange, hbox⟩ := hi
  exact ⟨window_length sides i hrange, of_decide_eq_true hbox⟩

theorem allPoints_length_24 (panel : List Side) (hlen : panel.length = 6)
    (hpts : ∀ s ∈ panel, s.points.length = 4) :
    (allPoints panel).length = 24 := by
  unfold allPoints
  rw [List.length_flatMap]
  have h1 : ∀ b ∈ panel.map (List.length ∘ Side.points), b = 4 := by
    intro b hb
    obtain ⟨s, hs, rfl⟩ := List.mem_map.mp hb
    exact hpts s hs
  have h2 := List.eq_replicate_of_mem h1
  rw [List.length_map, hlen] at h2
  rw [h2]
  rfl

attribute [local semireducible] Rat.mul Rat.inv Rat.add Rat.sub in
set_option maxRecDepth 100000 in
/-- C10 counterexample: six sides with two-dimensional points pass the
box test, so `find_panels` returns them as a panel, yet the property
calculator fails on the panel (a third coordinate is missing), against
the claim that the calculator is total on every detector output. -/
theorem calc_totality_counterexample :
    find_panels flatSides = [flatSides] ∧
    calculate_panel_properties flatSides = none := by
  constructor
  · decide
  · decide

/-- C10 (amended): every panel returned by `find_panels` has exactly 24
points in its flattened point list (six sides of four points each), so
the minima and maxima are over a non-empty collection and the
empty-collection failure of `min`/`max` is unreachable; if moreover every
point of the panel has at least three coordinates, the property
calculator succeeds. -/
theorem detector_output_calc_defined (sides : List Side) (panel : List Side)
    (hp : panel ∈ find_panels sides) :
    (allPoints panel).length = 24 ∧
    ((∀ p ∈ allPoints panel, 3 ≤ p.length) →
      ∃ r, calculate_panel_properties panel = some r) := by
  obtain ⟨hlen6, hbox⟩ := mem_find_panels_elim sides panel hp
  obtain ⟨hpts, _, _, _⟩ := hbox
  have h24 : (allPoints panel).length = 24 := allPoints_length_24 panel hlen6 hpts
  refine ⟨h24, fun hdim => ?_⟩
  have hmk : ∀ i : ℕ, i < 3 →
      (∃ a, axisMin (allPoints panel) i = some a) ∧
      ∃ b, axisMax (allPoints panel) i = some b := by
    intro i hi
    obtain ⟨xs, hxs, hxlen⟩ :=
      axisCoords_all_some i (allPoints panel)
        (fun p hp2 => lt_of_lt_of_le hi (hdim p hp2))
    have hne : xs ≠ [] := by
      intro hxe
      rw [hxe] at hxlen
      rw [h24] at hxlen
      exact absurd hxlen.symm (by simp)
    obtain ⟨x, xtl, rfl⟩ := List.exists_cons_of_ne_nil hne
    refine ⟨?_, ?_⟩
    · obtain ⟨m, hm⟩ := listMin_isSome x xtl
      exact ⟨m, by unfold axisMin; rw [hxs, Option.some_bind]; exact hm⟩
    · obtain ⟨m, hm⟩ := listMax_isSome x xtl
      exact ⟨m, by unfold axisMax; rw [hxs, Option.some_bind]; exact hm⟩
  obtain ⟨⟨mn0, h0⟩, b0, h3⟩ := hmk 0 (by omega)
  obtain ⟨⟨mn1, h1⟩, b1, h4⟩ := hmk 1 (by omega)
  obtain ⟨⟨mn2, h2⟩, b2, h5⟩ := hmk 2 (by omega)
  unfold calculate_panel_properties
  rw [h0, h1, h2, h3, h4, h5]
  simp only [Option.some_bind]
  have hlen3 : (List.insertionSort (fun a b : ℚ => a ≤ b)
      [b0 - mn0, b1 - mn1, b2 - mn2]).length = 3 := by
    rw [List.length_insertionSort]
    rfl
  obtain ⟨d0, d1, d2, hsort⟩ := List.length_eq_three.mp hlen3
  rw [hsort]
  exact ⟨_, rfl⟩

attribute [local semireducible] Rat.mul Rat.inv Rat.add Rat.sub in
set_option maxRecDepth 100000 in
/-- C10 witness for the amended claim: the unit cube panel inside its own
side list. -/
theorem detector_output_calc_defined_witness :
    cubeSides ∈ find_panels cubeSides ∧
    ((allPoints cubeSides).length = 24 ∧
      ((∀ p ∈ allPoints cubeSides, 3 ≤ p.length) →
        ∃ r, calculate_panel_properties cubeSides = some r)) :=
  ⟨by decide, detector_output_calc_defined cubeSides cubeSides (by decide)⟩

/-! ### Lemmas on the aggregation -/

theorem panelKey_eq_tripleOf (p : List Side) :
    panelKey p = ((tripleOf p).2.2, (tripleOf p).1 * (tripleOf p).2.1) := by
  unfold panelKey tripleOf
  cases hc : calculate_panel_properties p with
  | none => norm_num
  | some r => obtain ⟨o, l, w, h⟩ := r; rfl

theorem keyLE2_refl (x : ℚ × ℚ) : keyLE2 x x :=
  Or.inr ⟨rfl, le_refl _⟩

theorem keyLE2_total (x y : ℚ × ℚ) : keyLE2 x y ∨ keyLE2 y x := by
  unfold keyLE2
  rcases lt_trichotomy x.1 y.1 with h | h | h
  · exact Or.inl (Or.inl h)
  · rcases le_total x.2 y.2 with h2 | h2
    · exact Or.inl (Or.inr ⟨h, h2⟩)
    · exact Or.inr (Or.inr ⟨h.symm, h2⟩)
  · exact Or.inr (Or.inl h)

theorem keyLE2_trans (x y z : ℚ × ℚ) (hxy : keyLE2 x y) (hyz : keyLE2 y z) :
    keyLE2 x z := by
  unfold keyLE2 at *
  rcases hxy with h1 | ⟨h1, h1b⟩ <;> rcases hyz with h2 | ⟨h2, h2b⟩
  · exact Or.inl (lt_trans h1 h2)
  · exact Or.inl (h2 ▸ h1)
  · exact Or.inl (h1 ▸ h2)
  · exact Or.inr ⟨h1.trans h2, le_trans h1b h2b⟩

instance : IsTotal (List Side) panelGE :=
  ⟨fun a b => keyLE2_total (panelKey b) (panelKey a)⟩

instance : IsTrans (List Side) panelGE :=
  ⟨fun a b c hab hbc => keyLE2_trans (panelKey c) (panelKey b) (panelKey a) hbc hab⟩

theorem originsAt_insert (m : PanelMap) (k k1 o : ℚ × ℚ × ℚ) :
    originsAt (insertPanelEntry m k o) k1 =
      originsAt m k1 ++ if k = k1 then [o] else [] := by
  induction m with
  | nil => simp [insertPanelEntry, originsAt]
  | cons e rest ih =>
      obtain ⟨k2, os⟩ := e
      by_cases h2 : k2 = k
      · subst h2
        by_cases h1 : k2 = k1 <;>
          simp [insertPanelEntry, originsAt, h1]
      · by_cases h1 : k2 = k1
        · subst h1
          have hkk : k ≠ k2 := fun he => h2 he.symm
          simp [insertPanelEntry, originsAt, h2, hkk]
        · simp [insertPanelEntry, originsAt, h2, h1, ih]

theorem keys_insert (m : PanelMap) (k o : ℚ × ℚ × ℚ) :
    (insertPanelEntry m k o).map Prod.fst =
      if k ∈ m.map Prod.fst then m.map Prod.fst else m.map Prod.fst ++ [k] := by
  induction m with
  | nil => simp [insertPanelEntry]
  | cons e rest ih =>
      obtain ⟨k2, os⟩ := e
      by_cases h2 : k2 = k
      · subst h2
        simp [insertPanelEntry]
      · have hk2 : k ≠ k2 := fun he => h2 he.symm
        by_cases hk : k ∈ rest.map Prod.fst <;>
          simp [insertPanelEntry, h2, hk2, hk, ih]

theorem sum_insert (m : PanelMap) (k o : ℚ × ℚ × ℚ) :
    ((insertPanelEntry m k o).map fun e => e.2.length).sum =
      ((m.map fun e => e.2.length)).sum + 1 := by
  induction m with
  | nil => simp [insertPanelEntry]
  | cons e rest ih =>
      obtain ⟨k2, os⟩ := e
      by_cases h2 : k2 = k <;>
        simp [insertPanelEntry, h2, ih] <;> omega

theorem foldlM_aggregate : ∀ (ps : List (List Side)) (m0 m : PanelMap),
    List.foldlM aggregateStep m0 ps = some m ↔
      ((∀ p ∈ ps, (calculate_panel_properties p).isSome) ∧ m = groupPanels m0 ps) := by
  intro ps
  induction ps with
  | nil =>
      intro m0 m
      constructor
      · intro h
        have h2 : m0 = m := Option.some.inj h
        exact ⟨fun p hp => absurd hp (List.not_mem_nil p), h2 ▸ rfl⟩
      · rintro ⟨_, rfl⟩
        rfl
  | cons p ps ih =>
      intro m0 m
      cases hc : calculate_panel_properties p with
      | none => simp [List.foldlM_cons, aggregateStep, hc]
      | some r =>
          obtain ⟨o2, l2, w2, h2⟩ := r
          have htr : tripleOf p = (l2, w2, h2) := by unfold tripleOf; rw [hc]
          have hor : originOf p = o2 := by unfold originOf; rw [hc]
          simp [List.foldlM_cons, aggregateStep, hc, ih, groupPanels, htr, hor]

theorem originsAt_groupPanels : ∀ (ps : List (List Side)) (m : PanelMap)
    (k : ℚ × ℚ × ℚ),
    originsAt (groupPanels m ps) k =
      originsAt m k ++ (ps.filter fun p => decide (tripleOf p = k)).map originOf := by
  intro ps
  induction ps with
  | nil => intro m k; simp [groupPanels]
  | cons p ps ih =>
      intro m k
      rw [groupPanels, ih, originsAt_insert]
      by_cases hk : tripleOf p = k <;>
        simp [List.filter_cons, hk]

theorem keys_groupPanels : ∀ (ps : List (List Side)) (m : PanelMap),
    (groupPanels m ps).map Prod.fst =
      addNewKeys (m.map Prod.fst) (ps.map tripleOf) := by
  intro ps
  induction ps with
  | nil => intro m; rfl
  | cons p ps ih =>
      intro m
      rw [groupPanels, ih, keys_insert]
      rfl

theorem sum_groupPanels : ∀ (ps : List (List Side)) (m : PanelMap),
    ((groupPanels m ps).map fun e => e.2.length).sum =
      ((m.map fun e => e.2.length)).sum + ps.length := by
  intro ps
  induction ps with
  | nil => intro m; simp [groupPanels]
  | cons p ps ih =>
      intro m
      rw [groupPanels, ih, sum_insert]
      simp
      omega

theorem addNewKeys_nodup : ∀ (l ks : List (ℚ × ℚ × ℚ)), ks.Nodup →
    (addNewKeys ks l).Nodup := by
  intro l
  induction l with
  | nil => intro ks h; exact h
  | cons k rest ih =>
      intro ks h
      rw [addNewKeys]
      apply ih
      by_cases hk : k ∈ ks
      · rw [if_pos hk]; exact h
      · rw [if_neg hk]
        simp [List.nodup_append, h, hk]

theorem addNewKeys_eq : ∀ (l ks : List (ℚ × ℚ × ℚ)),
    addNewKeys ks l = ks ++ (firstKeys l).filter fun x => decide (x ∉ ks) := by
  intro l
  induction l with
  | nil => intro ks; simp [addNewKeys, firstKeys]
  | cons k rest ih =>
      intro ks
      rw [addNewKeys, firstKeys]
      by_cases hk : k ∈ ks
      · rw [if_pos hk, ih]
        congr 1
        rw [List.filter_cons]
        have hkf : decide (k ∉ ks) = false := by simp [hk]
        rw [hkf]
        simp only [Bool.false_eq_true, if_false]
        rw [List.filter_filter]
        apply List.filter_congr
        intro a _
        by_cases ha : a ∈ ks
        · simp [ha]
        · have hak : a ≠ k := fun he => ha (he ▸ hk)
          simp [ha, hak]
      · rw [if_neg hk, ih]
        rw [List.filter_cons]
        have hkt : decide (k ∉ ks) = true := by simp [hk]
        rw [hkt]
        simp only [if_true]
        rw [List.append_assoc]
        congr 1
        rw [List.singleton_append]
        congr 1
        rw [List.filter_filter]
        apply List.filter_congr
        intro a _
        by_cases ha : a ∈ ks <;> by_cases hak : a = k <;>
          simp [ha, hak]

theorem filter_triple_sortPanels (panels : List (List Side)) (k : ℚ × ℚ × ℚ) :
    (sortPanels panels).filter (fun p => decide (tripleOf p = k)) =
      panels.filter fun p => decide (tripleOf p = k) := by
  have hsub : List.Sublist (panels.filter fun p => decide (tripleOf p = k)) panels :=
    List.filter_sublist panels
  have hpw : (panels.filter fun p => decide (tripleOf p = k)).Pairwise panelGE := by
    apply List.pairwise_of_forall_mem_list
    intro p hp q hq
    have hp2 : tripleOf p = k := of_decide_eq_true (List.mem_filter.mp hp).2
    have hq2 : tripleOf q = k := of_decide_eq_true (List.mem_filter.mp hq).2
    unfold panelGE
    rw [panelKey_eq_tripleOf, panelKey_eq_tripleOf, hp2, hq2]
    exact keyLE2_refl _
  have h1 : List.Sublist (panels.filter fun p => decide (tripleOf p = k))
      (sortPanels panels) :=
    List.sublist_insertionSort hpw hsub
  have h2 : ((sortPanels panels).filter fun p => decide (tripleOf p = k)).Perm
      (panels.filter fun p => decide (tripleOf p = k)) :=
    (List.perm_insertionSort panelGE panels).filter _
  have h3 : List.Sublist (panels.filter fun p => decide (tripleOf p = k))
      ((sortPanels panels).filter fun p => decide (tripleOf p = k)) := by
    have h4 := h1.filter fun p => decide (tripleOf p = k)
    rwa [List.filter_eq_self.mpr] at h4
    intro a ha
    exact (List.mem_filter.mp ha).2
  exact (h3.eq_of_length h2.length_eq.symm).symm

/-- C2: on a successful aggregation, the total number of origins across
all groups equals the number of input panels; duplicates are not
deduplicated. -/
theorem aggregate_preserves_panel_count (panels : List (List Side))
    (m : PanelMap) (h : aggregate panels = some m) :
    (m.map fun e => e.2.length).sum = panels.length := by
  unfold aggregate at h
  obtain ⟨_, hm⟩ := (foldlM_aggregate (sortPanels panels) [] m).mp h
  subst hm
  rw [sum_groupPanels]
  simp [sortPanels, List.length_insertionSort]

attribute [local semireducible] Rat.mul Rat.inv Rat.add Rat.sub in
set_option maxRecDepth 400000 in
/-- C2 witness: a single cube panel. -/
theorem aggregate_preserves_panel_count_witness :
    aggregate [cubeSides] = some [((1, 1, 1), [(0, 0, 0)])] ∧
    (([((1, 1, 1), [(0, 0, 0)])] : PanelMap).map fun e => e.2.length).sum =
      [cubeSides].length :=
  ⟨by decide, aggregate_preserves_panel_count [cubeSides] _ (by decide)⟩

/-- C3: on a successful aggregation the keys of the mapping are pairwise
distinct dimension triples, and the origins recorded under a key `k` are
exactly the origins of the processed panels whose rounded triple equals
`k`; membership in a group is decided by exact equality of the rounded
triples, with no tolerance. -/
theorem aggregate_groups_by_exact_triple (panels : List (List Side))
    (m : PanelMap) (h : aggregate panels = some m) :
    (m.map Prod.fst).Nodup ∧
    ∀ k, originsAt m k =
      ((sortPanels panels).filter fun p => decide (tripleOf p = k)).map originOf := by
  unfold aggregate at h
  obtain ⟨_, hm⟩ := (foldlM_aggregate (sortPanels panels) [] m).mp h
  subst hm
  constructor
  · rw [keys_groupPanels]
    exact addNewKeys_nodup _ _ List.nodup_nil
  · intro k
    rw [originsAt_groupPanels]
    simp [originsAt]

attribute [local semireducible] Rat.mul Rat.inv Rat.add Rat.sub in
set_option maxRecDepth 400000 in
/-- C3 witness: a single cube panel. -/
theorem aggregate_groups_by_exact_triple_witness :
    aggregate [cubeSides] = some [((1, 1, 1), [(0, 0, 0)])] ∧
    ((([((1, 1, 1), [(0, 0, 0)])] : PanelMap).map Prod.fst).Nodup ∧
      ∀ k, originsAt [((1, 1, 1), [(0, 0, 0)])] k =
        ((sortPanels [cubeSides]).filter fun p =>
          decide (tripleOf p = k)).map originOf) :=
  ⟨by decide, aggregate_groups_by_exact_triple [cubeSides] _ (by decide)⟩

/-- C6: the panels are processed in descending order of
`(height, length * width)` (a stable descending sort of the detection
list); the distinct keys appear in the mapping in order of their first
appearance in that processed sequence; and the origins under each key are
those of the panels with that exact triple in their relative detection
order, since panels sharing a triple share the sort key and the sort is
stable. -/
theorem aggregate_processing_order (panels : List (List Side))
    (m : PanelMap) (h : aggregate panels = some m) :
    (sortPanels panels).Pairwise panelGE ∧
    List.Perm (sortPanels panels) panels ∧
    m.map Prod.fst = firstKeys ((sortPanels panels).map tripleOf) ∧
    ∀ k, originsAt m k =
      (panels.filter fun p => decide (tripleOf p = k)).map originOf := by
  unfold aggregate at h
  obtain ⟨_, hm⟩ := (foldlM_aggregate (sortPanels panels) [] m).mp h
  subst hm
  refine ⟨List.sorted_insertionSort panelGE panels,
    List.perm_insertionSort panelGE panels, ?_, ?_⟩
  · rw [keys_groupPanels, addNewKeys_eq]
    simp
  · intro k
    rw [originsAt_groupPanels, filter_triple_sortPanels]
    simp [originsAt]

attribute [local semireducible] Rat.mul Rat.inv Rat.add Rat.sub in
set_option maxRecDepth 400000 in
/-- C6 witness: two panels with identical dimension triples and different
origins aggregate into one group with the two origins in detection
order. -/
theorem aggregate_processing_order_witness :
    aggregate [cubeSides, cubeSidesShifted] =
      some [((1, 1, 1), [(0, 0, 0), (5, 0, 0)])] ∧
    ((sortPanels [cubeSides, cubeSidesShifted]).Pairwise panelGE ∧
      List.Perm (sortPanels [cubeSides, cubeSidesShifted])
        [cubeSides, cubeSidesShifted] ∧
      ([((1, 1, 1), [(0, 0, 0), (5, 0, 0)])] : PanelMap).map Prod.fst =
        firstKeys ((sortPanels [cubeSides, cubeSidesShifted]).map tripleOf) ∧
      ∀ k, originsAt [((1, 1, 1), [(0, 0, 0), (5, 0, 0)])] k =
        (([cubeSides, cubeSidesShifted].filter fun p =>
          decide (tripleOf p = k)).map originOf)) :=
  ⟨by decide,
    aggregate_processing_order [cubeSides, cubeSidesShifted] _ (by decide)⟩

end PanelAnalyzer
